/-
Verification of the OpenAI/GooseAI client adapter `lm_eval/models/gpt3.py`.

The Python module is shallowly embedded below:
* pure computations become Lean functions on `List`/`Nat`/`Int`/`ℚ`;
* Python exceptions become `Except PyError`;
* the remote completion API, the tokenizer and the environment are abstract
  parameters (functions passed to the embedded code);
* the repository helpers `utils.Reorderer` and `utils.chunks` are not part of
  the provided source tree, so they are modelled from the specification text
  (their doc comments say so explicitly).
-/
import Mathlib

set_option linter.unusedVariables false

/-- The Python exceptions that the embedded code can raise. -/
inductive PyError where
  | typeError
  | keyError
  | attributeError
  | valueError
  | indexError
  | assertionError
deriving DecidableEq, Repr

deriving instance DecidableEq for Except

/-- Python `l[-n:]` for `n ≥ 1`: the last `min n (length l)` elements. -/
def takeLast (n : Nat) (l : List α) : List α := l.drop (l.length - n)

/-- `isPre u s` : `u` is an initial segment of `s` (used to state C10). -/
def isPre (u s : List α) : Prop := ∃ t, u ++ t = s

/-- `isSuf u s` : `u` is a final segment of `s` (used to state C8). -/
def isSuf (u s : List α) : Prop := ∃ p, p ++ u = s

/-- `isSub t s` : `t` occurs contiguously inside `s` (used to state C10). -/
def isSub (t s : List α) : Prop := ∃ p q, p ++ t ++ q = s

/- ------------------------------------------------------------------
`get_result` (gpt3.py lines 10-36)
------------------------------------------------------------------ -/

/-- One element of `response.choices`: the fields of an OpenAI completion
choice that `gpt3.py` reads (`logprobs.tokens`, `logprobs.token_logprobs`,
`logprobs.top_logprobs`, `text`).  A `top_logprobs` entry is a Python dict,
modelled as its association list in iteration order; log-probabilities are
modelled as exact rationals. -/
structure Choice where
  tokens : List String
  token_logprobs : List ℚ
  top_logprobs : List (List (String × ℚ))
  text : String
deriving DecidableEq, Repr

/-- Python `max(d.keys(), key=lambda x: d[x])` on a dict `d`: the first key
(in iteration order) attaining the maximal value, together with that value;
`none` models the `ValueError` that `max` raises on an empty sequence. -/
def py_max_key (d : List (String × ℚ)) : Option (String × ℚ) :=
  match d with
  | [] => none
  | p :: rest => some (rest.foldl (fun best q => if best.2 < q.2 then q else best) p)

/-- The key picked by `py_max_key` (the argmax token of a top-logprobs dict). -/
def pyArgmax (d : List (String × ℚ)) : Option String := (py_max_key d).map Prod.fst

/-- The `for i in range(ctxlen, len(tokens[:-1]))` loop of `get_result`,
already specialised to the `[:-1]`-truncated token and top-logprob lists:
starting at index `i` with `rem` positions left, compare the argmax of the
top-logprobs dict with the actual token, stopping with `false` at the first
mismatch (`break`).  Out-of-range indexing is Python's `IndexError`; `max`
on an empty dict is Python's `ValueError`. -/
def greedy_scan (toks : List String) (tops : List (List (String × ℚ))) :
    Nat → Nat → Except PyError Bool
  | _, 0 => .ok true
  | i, rem+1 =>
    match toks[i]? with
    | none => .error .indexError
    | some token =>
      match tops[i]? with
      | none => .error .indexError
      | some d =>
        match py_max_key d with
        | none => .error .valueError
        | some kv =>
          if kv.1 ≠ token then .ok false else greedy_scan toks tops (i+1) rem

/-- `get_result(response, ctxlen)` (gpt3.py lines 10-36): drop the final
token's entries, sum the log-probabilities from `ctxlen` on, and check the
greedy-match property position by position. -/
def get_result (r : Choice) (ctxlen : Nat) : Except PyError (ℚ × Bool) :=
  let logprobs := r.token_logprobs.dropLast
  let continuation_logprobs := (logprobs.drop ctxlen).sum
  let toks := r.tokens.dropLast
  match greedy_scan toks r.top_logprobs.dropLast ctxlen (toks.length - ctxlen) with
  | .error e => .error e
  | .ok g => .ok (continuation_logprobs, g)

/- ------------------------------------------------------------------
`oa_completion` (gpt3.py lines 42-71)
------------------------------------------------------------------ -/

/-- The `_goose` object (gpt3.py lines 39-40, 58-59): a bare holder for a
`choices` list, generic in the choice payload. -/
structure GooseResp (γ : Type) where
  choices : List γ
deriving DecidableEq, Repr

/-- The body of `except openai.error.OpenAIError:` (gpt3.py lines 66-69):
`traceback.print_exc()` only writes to stderr; then
`os.path.join(os.environ["QUESTION_RESULT_PATH"], "traceback.txt")` raises
`KeyError` when the variable is unset; otherwise
`traceback.print_exc(file=<str>)` raises `AttributeError` because `print`
needs `file.write` and `str` has no `write` method.  The handler therefore
always raises before reaching `time.sleep`. -/
def oa_error_handler (env : List (String × String)) : Except PyError Unit :=
  match env.lookup "QUESTION_RESULT_PATH" with
  | none => .error .keyError
  | some _ => .error .attributeError

/-- The `while True` retry loop of `oa_completion` (gpt3.py lines 61-71).
`provider attempt` is the outcome of `openai.Completion.create(**kwargs)` on
the given attempt (`.error ()` = an `openai.error.OpenAIError`).  `fuel`
bounds how many iterations we observe (`.ok none` = still running); `sleeps`
records every executed `time.sleep(backoff_time)`, and the backoff is
multiplied by 3/2 after each sleep, exactly as lines 70-71 would do. -/
def oa_retry_loop (provider : Nat → Except Unit γ) (env : List (String × String)) :
    Nat → Nat → ℚ → List ℚ → (Except PyError (Option γ)) × List ℚ
  | 0, _, _, sleeps => (.ok none, sleeps)
  | fuel+1, attempt, backoff, sleeps =>
    match provider attempt with
    | .ok r => (.ok (some r), sleeps)
    | .error _ =>
      match oa_error_handler env with
      | .error e => (.error e, sleeps)
      | .ok _ => oa_retry_loop provider env fuel (attempt+1) (backoff * (3/2)) (sleeps ++ [backoff])

/-- Models the recursive `dask.delayed(oa_completion)(**k)` call of gpt3.py
line 56, where `k["prompt"] = [pmpt]` is a one-element list: such a call does
not re-enter the dask branch (`len(prompt) > 1` is false) and, on success,
reduces to the direct API call on the singleton prompt list. -/
def oa_completion_single (api : List String → GooseResp γ) (p : String) : GooseResp γ :=
  api [p]

/-- `oa_completion` on the success path (gpt3.py lines 42-65), with the API
abstracted as `api`: when the prompt list has more than one element, the code
issues one single-prompt call per element and assembles
`ob.choices = [x.choices[0] for x in r]` (lines 50-59) — but `ob` is never
returned; control falls through to the `while True` loop, which calls the API
once with the original multi-prompt kwargs and returns that (lines 61-65). -/
def oa_completion_success (api : List String → GooseResp γ) (prompt : List String) :
    GooseResp γ :=
  if 1 < prompt.length then
    let r := prompt.map (oa_completion_single api)
    let _ob : GooseResp γ := ⟨r.filterMap (fun x => x.choices.head?)⟩
    api prompt
  else api prompt

/-- The behaviour claim C5 describes for a multi-prompt `oa_completion`:
the returned value is assembled from the per-prompt calls, one choice per
prompt (equivalent to calling the API once per prompt). -/
def oa_completion_claimed (api : List String → GooseResp γ) (prompt : List String) :
    GooseResp γ :=
  ⟨prompt.filterMap (fun p => (oa_completion_single api p).choices.head?)⟩

/- ------------------------------------------------------------------
Stop-string post-processing of `greedy_until` (gpt3.py lines 244-245)
------------------------------------------------------------------ -/

/-- `startsWith t s = true` iff `t` is an initial segment of `s`. -/
def startsWith : List Char → List Char → Bool
  | [], _ => true
  | _ :: _, [] => false
  | a :: as, b :: bs => a == b && startsWith as bs

/-- The first piece of Python's `s.split(t)` for a non-empty separator `t`:
everything strictly before the leftmost occurrence of `t` (all of `s` when
`t` does not occur). -/
def splitFirst (t : List Char) : List Char → List Char
  | [] => []
  | c :: rest => if startsWith t (c :: rest) then [] else c :: splitFirst t rest

/-- Python `s.split(term)[0]`: raises `ValueError` on an empty separator. -/
def py_split_head (t s : List Char) : Except PyError (List Char) :=
  if t = [] then .error .valueError else .ok (splitFirst t s)

/-- The loop `for term in until_: s = s.split(term)[0]` (gpt3.py 244-245). -/
def applyUntil (s : List Char) : List (List Char) → Except PyError (List Char)
  | [] => .ok s
  | t :: rest =>
    match py_split_head t s with
    | .error e => .error e
    | .ok s2 => applyUntil s2 rest

/- ------------------------------------------------------------------
`utils.Reorderer` and `utils.chunks` (imported from `lm_eval.utils`, which
is not part of the provided sources) — modelled from the spec.
------------------------------------------------------------------ -/

/-- Index-ordering relation used to restore the original order: compare the
attached original positions. -/
def fstLe (a b : Nat × γ) : Prop := a.1 ≤ b.1

instance : DecidableRel (@fstLe γ) := fun a b => Nat.decLe a.1 b.1

instance : IsTotal (Nat × γ) fstLe := ⟨fun a b => Nat.le_total a.1 b.1⟩

instance : IsTrans (Nat × γ) fstLe := ⟨fun _ _ _ h1 h2 => Nat.le_trans h1 h2⟩

/-- Modelled from the spec: `utils.Reorderer` "groups pending requests by a
sort key (e.g., descending token length) to improve batch homogeneity, then
restores original order after responses arrive".  Each request is tagged
with its original position and the tagged list is sorted (stably) by the
key-comparison `le` on the requests. -/
def reorderer_sorted (le : α → α → Bool) (arr : List α) : List (Nat × α) :=
  List.insertionSort (fun a b => le a.2 b.2 = true) arr.enum

/-- Modelled from the spec: `Reorderer.get_reordered` — the requests in
key-sorted order. -/
def get_reordered (le : α → α → Bool) (arr : List α) : List α :=
  (reorderer_sorted le arr).map Prod.snd

/-- Modelled from the spec: `Reorderer.get_original` — given the per-request
answers `newarr` aligned with the reordered list, put each answer back at the
original position of its request. -/
def get_original (le : α → α → Bool) (arr : List α) (newarr : List γ) : List γ :=
  (List.insertionSort fstLe (((reorderer_sorted le arr).map Prod.fst).zip newarr)).map
    Prod.snd

/-- Helper for `chunks`: `acc` is the block being filled. -/
def chunksGo (n : Nat) : List α → List α → List (List α)
  | acc, [] => if acc.isEmpty then [] else [acc]
  | acc, x :: xs =>
    let acc2 := acc ++ [x]
    if acc2.length = n then acc2 :: chunksGo n [] xs else chunksGo n acc2 xs

/-- Modelled from the spec: `utils.chunks(iter, n)` — the requests grouped
into successive blocks of `n` (the last block may be shorter). -/
def chunks (l : List α) (n : Nat) : List (List α) := chunksGo n [] l

/- ------------------------------------------------------------------
Collation keys (gpt3.py lines 138-143 and 194-196)
------------------------------------------------------------------ -/

/-- Python `<=` on lists of ints (lexicographic, shorter-is-smaller at a
common prefix). -/
def natListLe : List Nat → List Nat → Bool
  | [], _ => true
  | _ :: _, [] => false
  | x :: xs, y :: ys => if x < y then true else if y < x then false else natListLe xs ys

/-- Python `<=` on `(int, int-tuple)` pairs (lexicographic). -/
def intNatListLe (a b : Int × List Nat) : Bool :=
  if a.1 < b.1 then true else if b.1 < a.1 then false else natListLe a.2 b.2

/-- Python `<=` on lists of characters (lexicographic). -/
def charListLe : List Char → List Char → Bool
  | [], _ => true
  | _ :: _, [] => false
  | x :: xs, y :: ys => if x < y then true else if y < x then false else charListLe xs ys

/-- A `_loglikelihood_tokens` request `(cache_key, context_enc,
continuation_enc)`; the cache key is abstract. -/
structure LReq where
  cache_key : Option Nat
  context_enc : List Nat
  continuation_enc : List Nat
deriving DecidableEq, Repr

/-- `_collate` of `_loglikelihood_tokens` (gpt3.py lines 138-143):
`(-len(toks), tuple(toks))` with `toks = x[1] + x[2]`. -/
def ll_key (r : LReq) : Int × List Nat :=
  (-(((r.context_enc ++ r.continuation_enc).length : Int)),
   r.context_enc ++ r.continuation_enc)

/-- Ascending comparison on `ll_key` (Python's `sorted` is ascending). -/
def ll_collate_le (a b : LReq) : Bool := intNatListLe (ll_key a) (ll_key b)

/-- A `greedy_until` request: `(context, until)` — a context string and its
stop-string list. -/
abbrev GReq := String × List String

/-- `_collate` of `greedy_until` (gpt3.py lines 194-196):
`(len(tok_encode(x[0])), x[0])`, compared ascending; `enc` abstracts
`self.tok_encode`. -/
def gu_collate_le (enc : String → List Nat) (a b : GReq) : Bool :=
  if (enc a.1).length < (enc b.1).length then true
  else if (enc b.1).length < (enc a.1).length then false
  else charListLe a.1.data b.1.data

/- ------------------------------------------------------------------
`sameuntil_chunks` (gpt3.py lines 200-211) — from the source
------------------------------------------------------------------ -/

/-- The loop body of `sameuntil_chunks`: `ret` is the block being filled and
`lastuntil` its stop-string list; a block is emitted when it is full
(`len(ret) >= size`) or the stop-string list changes. -/
def sameuntilGo (size : Nat) (lastuntil : List String) (ret : List GReq) :
    List GReq → List (List GReq × List String)
  | [] => if ret.isEmpty then [] else [(ret, lastuntil)]
  | x :: xs =>
    if size ≤ ret.length ∨ x.2 ≠ lastuntil
    then (ret, lastuntil) :: sameuntilGo size x.2 [x] xs
    else sameuntilGo size lastuntil (ret ++ [x]) xs

/-- `sameuntil_chunks(xs, size)` (gpt3.py lines 200-211).  The Python code
reads `xs[0][1]` first, so it is only ever called on a non-empty list (the
empty case below is unreachable: `greedy_until` returns early on no
requests). -/
def sameuntil_chunks (size : Nat) : List GReq → List (List GReq × List String)
  | [] => []
  | x :: xs => sameuntilGo size x.2 [] (x :: xs)

/- ------------------------------------------------------------------
The two adapters: class-level constants and `__init__` (gpt3.py 74-127,
263-287)
------------------------------------------------------------------ -/

/-- `GPT3LM.REQ_CHUNK_SIZE` (gpt3.py line 75). -/
def REQ_CHUNK_SIZE : Nat := 20

/-- `GPT3LM.max_length` (gpt3.py lines 110-113). -/
def GPT3LM_max_length : Nat := 2048

/-- `GPT3LM.max_gen_toks` (gpt3.py lines 115-117). -/
def GPT3LM_max_gen_toks : Nat := 256

/-- `GooseAILM.max_length` (gpt3.py lines 276-279). -/
def GooseAILM_max_length : Nat := 2022

/-- `GooseAILM.max_gen_toks` (gpt3.py lines 285-287). -/
def GooseAILM_max_gen_toks : Nat := 64

/-- The tokenizer an adapter ends up with. -/
inductive Tok where
  | gpt2
  | pile
deriving DecidableEq, Repr

/-- `GPT3LM.__init__` sets `self.tokenizer =
transformers.GPT2TokenizerFast.from_pretrained('gpt2')` (gpt3.py line 92). -/
def GPT3LM_tokenizer : Tok := .gpt2

/-- `GooseAILM.__init__` (gpt3.py lines 271-273): for engine `gpt-neo-20b`
or when `force_pile_tokenizer` is set, the GPT-2 tokenizer installed by the
superclass is replaced with the downloaded Pile tokenizer. -/
def GooseAILM_tokenizer (engine : String) (force_pile_tokenizer : Bool) : Tok :=
  if engine = "gpt-neo-20b" || force_pile_tokenizer then .pile else GPT3LM_tokenizer

/-- The default of the `pass_strings` parameter of `GPT3LM.__init__`
(gpt3.py line 77). -/
def pass_strings_default : Bool := false

/-- The adapter state set up by a completed `GPT3LM.__init__` (the fields of
`self` assigned after the `assert pass_strings` on line 87; tokenizer-library
and API-key internals are abstracted away). -/
structure GPT3State where
  engine : String
  truncate : Bool
  pass_strings : Bool
  tokenizer : Tok
deriving DecidableEq, Repr

/-- `GPT3LM.__init__` (gpt3.py lines 77-104): `assert pass_strings, ...`
(line 87) runs before any API or tokenizer state is assigned; with the
assertion failed the constructor raises `AssertionError` and no state
exists. -/
def gpt3lm_init (engine : String) (truncate : Bool) (pass_strings : Bool) :
    Except PyError GPT3State :=
  if pass_strings then .ok ⟨engine, truncate, pass_strings, GPT3LM_tokenizer⟩
  else .error .assertionError

/-- `GooseAILM.__init__` (gpt3.py lines 264-273): calls the superclass
constructor with `pass_strings=True`, then possibly swaps in the Pile
tokenizer. -/
def gooseai_init (engine : String) (truncate : Bool) (force_pile_tokenizer : Bool) :
    Except PyError GPT3State :=
  match gpt3lm_init engine truncate true with
  | .error e => .error e
  | .ok st => .ok { st with tokenizer := GooseAILM_tokenizer engine force_pile_tokenizer }

/- ------------------------------------------------------------------
`_loglikelihood_tokens` (gpt3.py lines 135-187)
------------------------------------------------------------------ -/

/-- `inp = (context_enc + continuation_enc)[-(self.max_length+1):]`
(gpt3.py line 152), for an adapter with `max_length = M`. -/
def ll_prompt_tokens (M : Nat) (r : LReq) : List Nat :=
  takeLast (M + 1) (r.context_enc ++ r.continuation_enc)

/-- `ctxlen = len(context_enc) - max(0, len(context_enc) +
len(continuation_enc) - (self.max_length+1))` (gpt3.py line 154), a Python
`int` (negative only when the continuation alone exceeds `max_length+1`
tokens). -/
def ll_ctxlen (M : Nat) (r : LReq) : Int :=
  (r.context_enc.length : Int) -
    max 0 ((r.context_enc.length : Int) + (r.continuation_enc.length : Int) - (M + 1))

/-- The per-request answer inside a `_loglikelihood_tokens` chunk: the
prompt is decoded to a string (`pass_strings` is always true, line 157-158),
`api` maps it to the corresponding element of `response.choices`, and
`get_result` is applied with the request's `ctxlen` (lines 178-179).
`Int.toNat` reflects that `ctxlen` is non-negative in every case the API
accepts. -/
def ll_answer (M : Nat) (dec : List Nat → String) (api : String → Choice) (r : LReq) :
    Except PyError (ℚ × Bool) :=
  get_result (api (dec (ll_prompt_tokens M r))) (ll_ctxlen M r).toNat

/-- One chunk iteration of `_loglikelihood_tokens` (gpt3.py lines 147-185):
the response choice of each prompt is paired positionally with its request
and `ctxlen`, and a raised exception aborts the whole call. -/
def ll_chunk_answers (M : Nat) (dec : List Nat → String) (api : String → Choice)
    (chunk : List LReq) : Except PyError (List (ℚ × Bool)) :=
  chunk.mapM (ll_answer M dec api)

/-- `_loglikelihood_tokens(requests)` (gpt3.py lines 135-187): sort by the
collation key, process in chunks of `REQ_CHUNK_SIZE`, and restore the
original order with `reord.get_original(res)`. -/
def loglikelihood_tokens (M : Nat) (dec : List Nat → String) (api : String → Choice)
    (requests : List LReq) : Except PyError (List (ℚ × Bool)) :=
  match (chunks (get_reordered ll_collate_le requests) REQ_CHUNK_SIZE).mapM
      (ll_chunk_answers M dec api) with
  | .error e => .error e
  | .ok chunkAnswers => .ok (get_original ll_collate_le requests chunkAnswers.flatten)

/-- The prompt lists of the API calls issued by `_loglikelihood_tokens`:
one call per chunk, one decoded prompt per request of the chunk
(gpt3.py lines 147-170). -/
def ll_api_prompts (M : Nat) (dec : List Nat → String) (requests : List LReq) :
    List (List String) :=
  (chunks (get_reordered ll_collate_le requests) REQ_CHUNK_SIZE).map
    (fun chunk => chunk.map (fun r => dec (ll_prompt_tokens M r)))

/- ------------------------------------------------------------------
`greedy_until` (gpt3.py lines 189-252)
------------------------------------------------------------------ -/

/-- The call `self.tok_encode(context, max_length=self.max_length,
truncation=False)` (gpt3.py line 217).  `GPT3LM.tok_encode` (line 129) is
`def tok_encode(self, string)`: it accepts no `max_length` or `truncation`
keyword, so Python raises `TypeError` before the tokenizer `enc` runs. -/
def tok_encode_kwargs_call (enc : String → List Nat) (context : String) :
    Except PyError (List Nat) :=
  .error .typeError

/-- The parameters of one completion call issued by `greedy_until`
(gpt3.py lines 225-232). -/
structure GuCall where
  prompt : List String
  max_tokens : Nat
  temperature : ℚ
  stop : List String
deriving DecidableEq, Repr

/-- One chunk iteration of `greedy_until` (gpt3.py lines 214-250) for an
adapter with `max_length = M` and `max_gen_toks = G`: encode each context
(the call on line 217 raises `TypeError`, see `tok_encode_kwargs_call`),
keep the last `M - G` tokens, decode, call the API once with temperature 0,
`max_tokens = G` and the chunk's shared stop-strings, then cut each response
text at its request's stop-strings. -/
def gu_chunk (M G : Nat) (enc : String → List Nat) (dec : List Nat → String)
    (api : GuCall → List Choice) (chunk : List GReq) (stops : List String) :
    Except PyError (List String) :=
  match chunk.mapM (fun c =>
      (match tok_encode_kwargs_call enc c.1 with
       | .error e => .error e
       | .ok context_enc => .ok (dec (takeLast (M - G) context_enc)) :
        Except PyError String)) with
  | .error e => .error e
  | .ok inps =>
    let texts := (api ⟨inps, G, 0, stops⟩).map Choice.text
    (chunk.zip texts).mapM (fun p =>
      match applyUntil p.2.data (p.1.2.map String.data) with
      | .error e => .error e
      | .ok u => .ok (String.mk u))

/-- `greedy_until(requests)` (gpt3.py lines 189-252): return `[]` on no
requests; otherwise sort by the collation key, group with
`sameuntil_chunks`, process each chunk, and restore the original order. -/
def greedy_until (M G : Nat) (enc : String → List Nat) (dec : List Nat → String)
    (api : GuCall → List Choice) (requests : List GReq) : Except PyError (List String) :=
  if requests.isEmpty then .ok []
  else
    match (sameuntil_chunks REQ_CHUNK_SIZE (get_reordered (gu_collate_le enc) requests)).mapM
        (fun cu => gu_chunk M G enc dec api cu.1 cu.2) with
    | .error e => .error e
    | .ok chunkResults =>
      .ok (get_original (gu_collate_le enc) requests chunkResults.flatten)

/- ------------------------------------------------------------------
Concrete inputs used by witnesses and counterexamples
------------------------------------------------------------------ -/

/-- An API oracle that distinguishes a batched call from per-prompt calls:
each returned choice records its prompt together with how many prompts the
call carried. -/
def batch_sensitive_api (ps : List String) : GooseResp (String × Nat) :=
  ⟨ps.map (fun p => (p, ps.length))⟩

/-- A response whose top-logprobs dict at the first continuation position is
empty (`max` over it raises `ValueError`). -/
def empty_top_choice : Choice := ⟨["a", "b"], [1, 2], [[], [("b", 1)]], ""⟩

/-- A well-formed two-token response. -/
def small_choice : Choice := ⟨["a", "b"], [3, 5], [[("a", 1)], [("x", 0)]], ""⟩

/-- Two small loglikelihood requests (one context token, one continuation
token, so the scored region sums no log-probabilities after the context). -/
def w_req1 : LReq := ⟨none, [4], [7]⟩

def w_req2 : LReq := ⟨none, [5], [8]⟩

/- ==================================================================
Theorems
================================================================== -/

/-- C1: the spec (and the docstring of `oa_completion`) promise that a
provider error is caught, slept on, and retried with backoff multiplied by
1.5.  In the code the `except` handler itself raises — `KeyError` when
`QUESTION_RESULT_PATH` is unset, otherwise `AttributeError` from
`traceback.print_exc(file=<str path>)` — so the first provider error
surfaces to the caller: the loop neither sleeps nor retries (the sleep
trace is returned unchanged). -/
theorem oa_completion_error_not_retried {γ : Type} (provider : Nat → Except Unit γ)
    (env : List (String × String)) (fuel attempt : Nat) (b : ℚ) (s : List ℚ)
    (h : provider attempt = .error ()) :
    ∃ e, oa_retry_loop provider env (fuel + 1) attempt b s = (.error e, s) := by
  cases hl : env.lookup "QUESTION_RESULT_PATH" with
  | none => exact ⟨.keyError, by simp [oa_retry_loop, h, oa_error_handler, hl]⟩
  | some _ => exact ⟨.attributeError, by simp [oa_retry_loop, h, oa_error_handler, hl]⟩

/-- C1 witness: a provider that errors on the first attempt makes the loop
surface an exception at once. -/
theorem oa_completion_error_not_retried_witness :
    ∃ e, oa_retry_loop (fun _ => (Except.error () : Except Unit Unit)) [] (0 + 1) 0 3 [] =
      (.error e, []) :=
  oa_completion_error_not_retried (fun _ => (Except.error () : Except Unit Unit)) [] 0 0 3 []
    rfl

/-- C5: for a multi-prompt call, `oa_completion` does build the per-prompt
dask result `ob`, but never returns it; the value its caller receives comes
from a single direct API call with the full prompt list, so it is *not* the
assembly of the per-prompt calls.  Witnessed by an API for which the two
values differ on the two-prompt input `["a", "b"]`. -/
theorem oa_completion_dask_result_discarded :
    oa_completion_success batch_sensitive_api ["a", "b"] ≠
      oa_completion_claimed batch_sensitive_api ["a", "b"] := by
  decide

/-- C7: the provider-specific defaults of the two adapters: `GPT3LM` has
`max_length = 2048`, `max_gen_toks = 256` and the GPT-2 tokenizer, while
`GooseAILM` overrides them to `2022` and `64` and substitutes the Pile
tokenizer exactly for engine `gpt-neo-20b` or when `force_pile_tokenizer`
is set. -/
theorem adapter_provider_defaults :
    GPT3LM_max_length = 2048 ∧ GPT3LM_max_gen_toks = 256 ∧ GPT3LM_tokenizer = Tok.gpt2 ∧
    GooseAILM_max_length = 2022 ∧ GooseAILM_max_gen_toks = 64 ∧
    (∀ (engine : String) (force_pile_tokenizer : Bool),
      GooseAILM_tokenizer engine force_pile_tokenizer =
        if engine = "gpt-neo-20b" ∨ force_pile_tokenizer = true then Tok.pile
        else Tok.gpt2) := by
  refine ⟨rfl, rfl, rfl, rfl, rfl, ?_⟩
  intro engine force_pile_tokenizer
  by_cases h : engine = "gpt-neo-20b" <;> cases force_pile_tokenizer <;>
    simp [GooseAILM_tokenizer, GPT3LM_tokenizer, h]

/-- C9: `pass_strings` defaults to `False`; constructing `GPT3LM` with the
default raises `AssertionError` before any adapter state exists, and
`GooseAILM` (which passes `pass_strings=True`) constructs successfully. -/
theorem gpt3lm_init_requires_pass_strings :
    pass_strings_default = false ∧
    (∀ (engine : String) (truncate : Bool),
      gpt3lm_init engine truncate pass_strings_default = .error .assertionError) ∧
    (∀ (engine : String) (truncate : Bool) (force_pile_tokenizer : Bool),
      gooseai_init engine truncate force_pile_tokenizer =
        .ok ⟨engine, truncate, true, GooseAILM_tokenizer engine force_pile_tokenizer⟩) :=
  ⟨rfl, fun _ _ => rfl, fun _ _ _ => rfl⟩

/-- `startsWith` decides `isPre`. -/
theorem startsWith_iff_isPre (t s : List Char) : startsWith t s = true ↔ isPre t s := by
  induction t generalizing s with
  | nil =>
    simp only [startsWith, isPre, List.nil_append, true_iff]
    exact ⟨s, rfl⟩
  | cons a as ih =>
    cases s with
    | nil => simp [startsWith, isPre]
    | cons b bs =>
      simp only [startsWith, Bool.and_eq_true, beq_iff_eq, ih, isPre, List.cons_append,
        List.cons.injEq]
      constructor
      · rintro ⟨rfl, u, rfl⟩
        exact ⟨u, rfl, rfl⟩
      · rintro ⟨u, rfl, rfl⟩
        exact ⟨rfl, u, rfl⟩

/-- `isPre` is transitive. -/
theorem isPre_trans {a b c : List α} (h1 : isPre a b) (h2 : isPre b c) : isPre a c := by
  obtain ⟨u, rfl⟩ := h1
  obtain ⟨v, rfl⟩ := h2
  exact ⟨u ++ v, (List.append_assoc a u v).symm⟩

/-- An occurrence inside `u` is an occurrence inside any extension of `u`. -/
theorem isSub_of_isSub_isPre {t u s : List α} (h1 : isSub t u) (h2 : isPre u s) :
    isSub t s := by
  obtain ⟨p, q, rfl⟩ := h1
  obtain ⟨w, rfl⟩ := h2
  exact ⟨p, q ++ w, by simp⟩

/-- Occurrences inside a cons either start at the head or lie in the tail. -/
theorem isSub_cons_iff (t : List α) (c : α) (l : List α) :
    isSub t (c :: l) ↔ isPre t (c :: l) ∨ isSub t l := by
  constructor
  · rintro ⟨p, q, hpq⟩
    cases p with
    | nil =>
      left
      exact ⟨q, by simpa using hpq⟩
    | cons x xs =>
      right
      rw [List.cons_append, List.cons_append] at hpq
      exact ⟨xs, q, (List.cons.injEq _ _ _ _).mp hpq |>.2⟩
  · rintro (⟨u, hu⟩ | ⟨p, q, hpq⟩)
    · exact ⟨[], u, by simpa using hu⟩
    · exact ⟨c :: p, q, by rw [← hpq]; simp⟩

/-- Nothing non-empty occurs inside the empty list. -/
theorem isSub_nil (t : List α) (ht : t ≠ []) : ¬ isSub t [] := by
  rintro ⟨p, q, hpq⟩
  rcases List.append_eq_nil.mp (List.append_eq_nil.mp hpq).1 with ⟨-, h2⟩
  exact ht h2

/-- The first split piece is an initial segment of the input. -/
theorem splitFirst_isPre (t s : List Char) : isPre (splitFirst t s) s := by
  induction s with
  | nil => exact ⟨[], rfl⟩
  | cons c rest ih =>
    by_cases h : startsWith t (c :: rest) = true
    · rw [splitFirst, if_pos h]
      exact ⟨c :: rest, rfl⟩
    · rw [splitFirst, if_neg h]
      obtain ⟨u, hu⟩ := ih
      exact ⟨u, by rw [List.cons_append, hu]⟩

/-- The separator does not occur in the first split piece. -/
theorem not_isSub_splitFirst (t s : List Char) (ht : t ≠ []) :
    ¬ isSub t (splitFirst t s) := by
  induction s with
  | nil => exact isSub_nil t ht
  | cons c rest ih =>
    by_cases h : startsWith t (c :: rest) = true
    · rw [splitFirst, if_pos h]
      exact isSub_nil t ht
    · rw [splitFirst, if_neg h]
      intro hsub
      rcases (isSub_cons_iff t c (splitFirst t rest)).mp hsub with hpre | htail
      · have hp2 : isPre (c :: splitFirst t rest) (c :: rest) := by
          obtain ⟨u, hu⟩ := splitFirst_isPre t rest
          exact ⟨u, by rw [List.cons_append, hu]⟩
        exact h ((startsWith_iff_isPre t (c :: rest)).mpr (isPre_trans hpre hp2))
      · exact ih htail

/-- The stop-string loop (all separators non-empty) returns an initial
segment of the input in which no separator occurs. -/
theorem applyUntil_ok (s : List Char) (terms : List (List Char))
    (h : ∀ t ∈ terms, t ≠ []) :
    ∃ u, applyUntil s terms = .ok u ∧ isPre u s ∧ ∀ t ∈ terms, ¬ isSub t u := by
  induction terms generalizing s with
  | nil => exact ⟨s, rfl, ⟨[], by simp⟩, by simp⟩
  | cons t rest ih =>
    have ht : t ≠ [] := h t (by simp)
    obtain ⟨u, hu, hpre, hsub⟩ := ih (splitFirst t s) (fun t' ht' => h t' (by simp [ht']))
    refine ⟨u, ?_, isPre_trans hpre (splitFirst_isPre t s), ?_⟩
    · rw [applyUntil, py_split_head, if_neg ht]
      exact hu
    · intro t' ht'
      rcases List.mem_cons.mp ht' with rfl | hmem
      · intro hcon
        exact not_isSub_splitFirst t' s ht (isSub_of_isSub_isPre hcon hpre)
      · exact hsub t' hmem

/-- C10 counterexample: with an empty stop-string, Python's `split` raises
`ValueError`, so no string at all is stored for the request — the claimed
"for every list of stop-strings" fails at `until_ = [""]`. -/
theorem applyUntil_empty_stop_raises :
    applyUntil ['a', 'b'] [([] : List Char)] = .error .valueError := by
  decide

/-- C10 (amended: every stop-string non-empty): `greedy_until` on no
requests returns `[]`, and the stop-string loop returns an initial segment
of the response text containing no occurrence of any of the request's
stop-strings. -/
theorem greedy_until_empty_and_stop_cutting (M G : Nat) (enc : String → List Nat)
    (dec : List Nat → String) (api : GuCall → List Choice)
    (s : List Char) (terms : List (List Char)) (h : ∀ t ∈ terms, t ≠ []) :
    greedy_until M G enc dec api [] = .ok [] ∧
    ∃ u, applyUntil s terms = .ok u ∧ isPre u s ∧ ∀ t ∈ terms, ¬ isSub t u :=
  ⟨rfl, applyUntil_ok s terms h⟩

/-- C10 witness at a concrete response text and stop-string. -/
theorem greedy_until_empty_and_stop_cutting_witness :
    greedy_until 2048 256 (fun _ => []) (fun _ => "") (fun _ => []) [] = .ok [] ∧
    ∃ u, applyUntil ['a', 'b', 'c'] [['b']] = .ok u ∧ isPre u ['a', 'b', 'c'] ∧
      ∀ t ∈ [['b']], ¬ isSub t u :=
  greedy_until_empty_and_stop_cutting 2048 256 (fun _ => []) (fun _ => "") (fun _ => [])
    ['a', 'b', 'c'] [['b']] (by decide)

/-- C8: for `1 ≤ len(continuation_enc) ≤ max_length + 1`, the prompt is the
last `max_length + 1` tokens of `context_enc + continuation_enc`, the number
of scored positions equals the number of continuation tokens
(`len(prompt) - ctxlen = len(continuation_enc)`), and the continuation is a
final segment of the prompt — truncation only ever removes context
tokens. -/
theorem ll_truncation_only_removes_context (M : Nat) (ck : Option Nat)
    (ctx cont : List Nat) (h1 : 1 ≤ cont.length) (h2 : cont.length ≤ M + 1) :
    ll_prompt_tokens M ⟨ck, ctx, cont⟩ = takeLast (M + 1) (ctx ++ cont) ∧
    ((ll_prompt_tokens M ⟨ck, ctx, cont⟩).length : Int) - ll_ctxlen M ⟨ck, ctx, cont⟩ =
      (cont.length : Int) ∧
    isSuf cont (ll_prompt_tokens M ⟨ck, ctx, cont⟩) := by
  have hpt : ll_prompt_tokens M ⟨ck, ctx, cont⟩ =
      (ctx ++ cont).drop (ctx.length + cont.length - (M + 1)) := by
    simp [ll_prompt_tokens, takeLast]
  have hcl : ll_ctxlen M ⟨ck, ctx, cont⟩ =
      (ctx.length : Int) - max 0 ((ctx.length : Int) + (cont.length : Int) - (M + 1)) :=
    rfl
  refine ⟨rfl, ?_, ?_⟩
  · rw [hpt, hcl, List.length_drop, List.length_append]
    rcases le_or_lt ((ctx.length : Int) + (cont.length : Int) - (M + 1)) 0 with h | h
    · rw [max_eq_left h]
      omega
    · rw [max_eq_right (le_of_lt h)]
      omega
  · refine ⟨ctx.drop (ctx.length + cont.length - (M + 1)), ?_⟩
    rw [hpt, List.drop_append_of_le_length (by omega)]

/-- C8 witness at a concrete request. -/
theorem ll_truncation_only_removes_context_witness :
    ll_prompt_tokens 2048 ⟨none, [1, 2], [3]⟩ = takeLast (2048 + 1) ([1, 2] ++ [3]) ∧
    ((ll_prompt_tokens 2048 ⟨none, [1, 2], [3]⟩).length : Int) -
      ll_ctxlen 2048 ⟨none, [1, 2], [3]⟩ = (([3] : List Nat).length : Int) ∧
    isSuf [3] (ll_prompt_tokens 2048 ⟨none, [1, 2], [3]⟩) :=
  ll_truncation_only_removes_context 2048 none [1, 2] [3] (by decide) (by decide)

/-- Reading below the last position commutes with `dropLast`. -/
theorem getD_dropLast_of_lt (l : List α) (j : Nat) (d : α) (h : j < l.length - 1) :
    l.dropLast.getD j d = l.getD j d := by
  rw [List.dropLast_eq_take, List.getD_eq_getElem?_getD, List.getD_eq_getElem?_getD,
    List.getElem?_take_of_lt h]

/-- The scanning loop of `get_result` never raises when the scanned range is
in bounds and every scanned dict is non-empty, and its boolean is `true`
exactly when every scanned position is a greedy match. -/
theorem greedy_scan_ok (toks : List String) (tops : List (List (String × ℚ)))
    (i rem : Nat) (hlen : i + rem ≤ toks.length) (hlen2 : i + rem ≤ tops.length)
    (hne : ∀ j, i ≤ j → j < i + rem → tops.getD j [] ≠ []) :
    ∃ b, greedy_scan toks tops i rem = .ok b ∧
      (b = true ↔ ∀ j, i ≤ j → j < i + rem →
        pyArgmax (tops.getD j []) = some (toks.getD j "")) := by
  induction rem generalizing i with
  | zero =>
    refine ⟨true, rfl, ?_⟩
    constructor
    · intro _ j h1 h2
      omega
    · intro _
      rfl
  | succ rem ih =>
    have hi : i < toks.length := by omega
    have hi2 : i < tops.length := by omega
    have htok : toks[i]? = some toks[i] := List.getElem?_eq_getElem hi
    have htop : tops[i]? = some tops[i] := List.getElem?_eq_getElem hi2
    have hgd : tops.getD i [] = tops[i] := by
      rw [List.getD_eq_getElem?_getD, htop, Option.getD_some]
    have hgd2 : toks.getD i "" = toks[i] := by
      rw [List.getD_eq_getElem?_getD, htok, Option.getD_some]
    have hne_i : tops[i] ≠ [] := by
      have := hne i (Nat.le_refl i) (by omega)
      rwa [hgd] at this
    obtain ⟨kv, hkv⟩ : ∃ kv, py_max_key tops[i] = some kv := by
      cases hd : tops[i] with
      | nil => exact absurd hd hne_i
      | cons p ps => exact ⟨_, by rw [py_max_key]⟩
    by_cases hmatch : kv.1 = toks[i]
    · obtain ⟨b, hb, hiff⟩ := ih (i + 1) (by omega) (by omega)
        (fun j h1 h2 => hne j (by omega) (by omega))
      refine ⟨b, ?_, ?_⟩
      · simp only [greedy_scan, htok, htop, hkv]
        rw [if_neg (not_not_intro hmatch)]
        exact hb
      · rw [hiff]
        constructor
        · intro hall j h1 h2
          rcases Nat.eq_or_lt_of_le h1 with heq | hlt
          · subst heq
            rw [hgd, hgd2, pyArgmax, hkv, Option.map_some']
            exact congrArg some hmatch
          · exact hall j (by omega) (by omega)
        · intro hall j h1 h2
          exact hall j (by omega) (by omega)
    · refine ⟨false, ?_, ?_⟩
      · simp only [greedy_scan, htok, htop, hkv]
        rw [if_pos hmatch]
      · simp only [Bool.false_eq_true, false_iff]
        intro hall
        have := hall i (Nat.le_refl i) (by omega)
        rw [hgd, hgd2, pyArgmax, hkv, Option.map_some', Option.some.injEq] at this
        exact hmatch this

/-- C2 (amended: every top-logprobs dict in the continuation region is
non-empty): `get_result` returns the sum of the per-token log-probabilities
at positions `ctxlen .. n-2` (the final token's entry dropped), and its
greedy flag is `true` iff at each such position the maximal key of the
top-logprobs dict is the actual token. -/
theorem get_result_continuation_spec (r : Choice) (n ctxlen : Nat)
    (hlp : r.token_logprobs.length = n) (htk : r.tokens.length = n)
    (htp : r.top_logprobs.length = n) (hn : 1 ≤ n) (hc : ctxlen ≤ n - 1)
    (hne : ∀ i, i < n - 1 → ctxlen ≤ i → r.top_logprobs.getD i [] ≠ []) :
    ∃ b, get_result r ctxlen =
        .ok (((r.token_logprobs.take (n - 1)).drop ctxlen).sum, b) ∧
      (b = true ↔ ∀ i, i < n - 1 → ctxlen ≤ i →
        pyArgmax (r.top_logprobs.getD i []) = some (r.tokens.getD i "")) := by
  have hlt : r.tokens.dropLast.length = n - 1 := by
    rw [List.length_dropLast, htk]
  have hlt2 : r.top_logprobs.dropLast.length = n - 1 := by
    rw [List.length_dropLast, htp]
  obtain ⟨b, hb, hiff⟩ := greedy_scan_ok r.tokens.dropLast r.top_logprobs.dropLast ctxlen
    ((n - 1) - ctxlen) (by omega) (by omega)
    (fun j h1 h2 => by
      rw [getD_dropLast_of_lt _ _ _ (by omega)]
      exact hne j (by omega) h1)
  have hsum : r.token_logprobs.dropLast = r.token_logprobs.take (n - 1) := by
    rw [List.dropLast_eq_take, hlp]
  refine ⟨b, ?_, ?_⟩
  · unfold get_result
    dsimp only
    rw [hsum, hlt, hb]
  · rw [hiff]
    constructor
    · intro hall i h1 h2
      have := hall i h2 (by omega)
      rwa [getD_dropLast_of_lt _ _ _ (by omega), getD_dropLast_of_lt _ _ _ (by omega)]
        at this
    · intro hall j h1 h2
      rw [getD_dropLast_of_lt _ _ _ (by omega), getD_dropLast_of_lt _ _ _ (by omega)]
      exact hall j (by omega) h1

/-- C2 counterexample: on a response whose top-logprobs dict at the first
continuation position is empty (`n = 2`, `ctxlen = 0`), `get_result` raises
`ValueError` instead of returning the claimed pair. -/
theorem get_result_empty_top_raises :
    get_result empty_top_choice 0 = .error .valueError := by
  decide

/-- C2 witness at a concrete well-formed response. -/
theorem get_result_continuation_spec_witness :
    ∃ b, get_result small_choice 0 =
        .ok (((small_choice.token_logprobs.take (2 - 1)).drop 0).sum, b) ∧
      (b = true ↔ ∀ i, i < 2 - 1 → 0 ≤ i →
        pyArgmax (small_choice.top_logprobs.getD i []) =
          some (small_choice.tokens.getD i "")) :=
  get_result_continuation_spec small_choice 2 0 rfl rfl rfl (by decide) (by decide)
    (by decide)

/-- Concatenating the chunks gives back the input (helper form). -/
theorem chunksGo_flatten (n : Nat) (acc l : List α) :
    (chunksGo n acc l).flatten = acc ++ l := by
  induction l generalizing acc with
  | nil => cases acc <;> simp [chunksGo]
  | cons x xs ih =>
    simp only [chunksGo, List.length_append, List.length_singleton]
    by_cases h : acc.length + 1 = n
    · simp [h, ih]
    · simp [h, ih]

/-- Every chunk respects the size bound (helper form). -/
theorem chunksGo_length_le (n : Nat) (hn : 0 < n) (acc l : List α)
    (hacc : acc.length < n) : ∀ c ∈ chunksGo n acc l, c.length ≤ n := by
  induction l generalizing acc with
  | nil =>
    intro c hc
    cases acc with
    | nil => simp [chunksGo] at hc
    | cons a as =>
      simp only [chunksGo, List.isEmpty_cons, ite_false, List.mem_singleton,
        Bool.false_eq_true] at hc
      subst hc
      omega
  | cons x xs ih =>
    intro c hc
    simp only [chunksGo] at hc
    by_cases h : (acc ++ [x]).length = n
    · rw [if_pos h] at hc
      rcases List.mem_cons.mp hc with rfl | hmem
      · omega
      · exact ih [] (by simpa using hn) c hmem
    · rw [if_neg h] at hc
      have : (acc ++ [x]).length < n := by
        rw [List.length_append] at h ⊢
        simp only [List.length_singleton] at h ⊢
        omega
      exact ih (acc ++ [x]) this c hc

/-- `utils.chunks` concatenates back to the input list. -/
theorem chunks_flatten (l : List α) (n : Nat) : (chunks l n).flatten = l := by
  simpa using chunksGo_flatten n [] l

/-- Every block of `utils.chunks l n` has at most `n` elements. -/
theorem chunks_length_le (l : List α) (n : Nat) (hn : 0 < n) :
    ∀ c ∈ chunks l n, c.length ≤ n :=
  chunksGo_length_le n hn [] l (by simpa using hn)

/-- Concatenating the `sameuntil_chunks` blocks gives back the input
(helper form). -/
theorem sameuntilGo_flatten (size : Nat) (lastuntil : List String) (ret l) :
    ((sameuntilGo size lastuntil ret l).map Prod.fst).flatten = ret ++ l := by
  induction l generalizing ret lastuntil with
  | nil => cases ret <;> simp [sameuntilGo]
  | cons x xs ih =>
    simp only [sameuntilGo]
    by_cases h : size ≤ ret.length ∨ x.2 ≠ lastuntil
    · simp [h, ih]
    · simp [h, ih]

/-- Size bound and until-homogeneity of `sameuntil_chunks` (helper form). -/
theorem sameuntilGo_bounds (size : Nat) (hsz : 0 < size) (lastuntil : List String)
    (ret l) (hret : ret.length ≤ size) (hsame : ∀ r ∈ ret, r.2 = lastuntil) :
    ∀ cu ∈ sameuntilGo size lastuntil ret l,
      cu.1.length ≤ size ∧ ∀ r ∈ cu.1, r.2 = cu.2 := by
  induction l generalizing ret lastuntil with
  | nil =>
    intro cu hcu
    cases ret with
    | nil => simp [sameuntilGo] at hcu
    | cons a as =>
      simp only [sameuntilGo, List.isEmpty_cons, ite_false, List.mem_singleton,
        Bool.false_eq_true] at hcu
      subst hcu
      exact ⟨hret, hsame⟩
  | cons x xs ih =>
    intro cu hcu
    simp only [sameuntilGo] at hcu
    by_cases h : size ≤ ret.length ∨ x.2 ≠ lastuntil
    · rw [if_pos h] at hcu
      rcases List.mem_cons.mp hcu with rfl | hmem
      · exact ⟨hret, hsame⟩
      · exact ih x.2 [x] (by simpa using hsz) (by simp) cu hmem
    · rw [if_neg h] at hcu
      push_neg at h
      refine ih lastuntil (ret ++ [x]) ?_ ?_ cu hcu
      · rw [List.length_append]
        simp only [List.length_singleton]
        omega
      · intro r hr
        rcases List.mem_append.mp hr with hr | hr
        · exact hsame r hr
        · rw [List.mem_singleton.mp hr]
          exact h.2

/-- `sameuntil_chunks` concatenates back to the input. -/
theorem sameuntil_chunks_flatten (size : Nat) (xs : List GReq) :
    ((sameuntil_chunks size xs).map Prod.fst).flatten = xs := by
  cases xs with
  | nil => rfl
  | cons x xs => simpa using sameuntilGo_flatten size x.2 [] (x :: xs)

/-- Every `sameuntil_chunks` block has at most `size` requests, all sharing
the block's stop-string list. -/
theorem sameuntil_chunks_bounds (size : Nat) (hsz : 0 < size) (xs : List GReq) :
    ∀ cu ∈ sameuntil_chunks size xs,
      cu.1.length ≤ size ∧ ∀ r ∈ cu.1, r.2 = cu.2 := by
  cases xs with
  | nil =>
    intro cu hcu
    simp [sameuntil_chunks] at hcu
  | cons x xs =>
    exact sameuntilGo_bounds size hsz x.2 [] (x :: xs) (by simp) (by simp)

/-- C6: every API call of `_loglikelihood_tokens` carries at most
`REQ_CHUNK_SIZE = 20` prompts; the loglikelihood chunks concatenate back to
the reordered request list; and every `greedy_until` block contains at most
20 requests, all sharing the block's stop-string list, with the blocks
concatenating back to the reordered request list. -/
theorem api_chunking_invariants :
    (∀ (M : Nat) (dec : List Nat → String) (requests : List LReq),
      ∀ c ∈ ll_api_prompts M dec requests, c.length ≤ REQ_CHUNK_SIZE) ∧
    (∀ requests : List LReq,
      (chunks (get_reordered ll_collate_le requests) REQ_CHUNK_SIZE).flatten =
        get_reordered ll_collate_le requests) ∧
    (∀ (enc : String → List Nat) (requests : List GReq),
      (∀ cu ∈ sameuntil_chunks REQ_CHUNK_SIZE (get_reordered (gu_collate_le enc) requests),
        cu.1.length ≤ REQ_CHUNK_SIZE ∧ ∀ r ∈ cu.1, r.2 = cu.2) ∧
      ((sameuntil_chunks REQ_CHUNK_SIZE
          (get_reordered (gu_collate_le enc) requests)).map Prod.fst).flatten =
        get_reordered (gu_collate_le enc) requests) := by
  refine ⟨?_, ?_, ?_⟩
  · intro M dec requests c hc
    unfold ll_api_prompts at hc
    obtain ⟨c0, hc0, rfl⟩ := List.mem_map.mp hc
    rw [List.length_map]
    exact chunks_length_le _ _ (by decide) c0 hc0
  · intro requests
    exact chunks_flatten _ _
  · intro enc requests
    exact ⟨sameuntil_chunks_bounds _ (by decide) _, sameuntil_chunks_flatten _ _⟩

/-- Reordering does not change the number of requests. -/
theorem get_reordered_length (le : α → α → Bool) (arr : List α) :
    (get_reordered le arr).length = arr.length := by
  unfold get_reordered reorderer_sorted
  rw [List.length_map, List.length_insertionSort, List.enum_length]

/-- A `sameuntilGo` run started on a non-empty block emits a non-empty
first block. -/
theorem sameuntilGo_head_ne_nil (size : Nat) (lastuntil : List String) (ret l)
    (h : ret ≠ []) :
    ∃ c u rest, sameuntilGo size lastuntil ret l = (c, u) :: rest ∧ c ≠ [] := by
  induction l generalizing ret lastuntil with
  | nil =>
    refine ⟨ret, lastuntil, [], ?_, h⟩
    simp [sameuntilGo, h]
  | cons x xs ih =>
    by_cases hc : size ≤ ret.length ∨ x.2 ≠ lastuntil
    · exact ⟨ret, lastuntil, _, by rw [sameuntilGo, if_pos hc], h⟩
    · rw [sameuntilGo, if_neg hc]
      exact ih lastuntil (ret ++ [x]) (by simp)

/-- On a non-empty chunk, `gu_chunk` raises the `TypeError` of the
`tok_encode` call before any API interaction. -/
theorem gu_chunk_type_error (M G : Nat) (enc : String → List Nat)
    (dec : List Nat → String) (api : GuCall → List Choice) (chunk : List GReq)
    (stops : List String) (h : chunk ≠ []) :
    gu_chunk M G enc dec api chunk stops = .error .typeError := by
  cases chunk with
  | nil => exact absurd rfl h
  | cons c cs =>
    rw [gu_chunk, List.mapM_cons]
    rfl

/-- C4: the claim says `greedy_until` issues completion calls whose prompts
are the decoded last `max_length - max_gen_toks` context tokens; in fact the
call `self.tok_encode(context, max_length=..., truncation=False)` passes
keyword arguments that `tok_encode(self, string)` does not accept, so on any
non-empty request list `greedy_until` raises `TypeError` before issuing a
single API call. -/
theorem greedy_until_raises_type_error (M G : Nat) (enc : String → List Nat)
    (dec : List Nat → String) (api : GuCall → List Choice) (requests : List GReq)
    (h : requests ≠ []) :
    greedy_until M G enc dec api requests = .error .typeError := by
  obtain ⟨x, xs, rfl⟩ := List.exists_cons_of_ne_nil h
  have hre : get_reordered (gu_collate_le enc) (x :: xs) ≠ [] := by
    intro hcon
    have hl := get_reordered_length (gu_collate_le enc) (x :: xs)
    rw [hcon] at hl
    simp at hl
  obtain ⟨y, ys, hys⟩ := List.exists_cons_of_ne_nil hre
  obtain ⟨c, u, rest, hchunks, hcne⟩ :
      ∃ c u rest, sameuntil_chunks REQ_CHUNK_SIZE (y :: ys) = (c, u) :: rest ∧ c ≠ [] := by
    rw [sameuntil_chunks, sameuntilGo, if_neg (by simp [REQ_CHUNK_SIZE])]
    exact sameuntilGo_head_ne_nil REQ_CHUNK_SIZE y.2 [y] ys (by simp)
  rw [greedy_until, if_neg (by simp), hys, hchunks, List.mapM_cons]
  dsimp only
  rw [gu_chunk_type_error M G enc dec api c u hcne]
  rfl

/-- C4 witness: a concrete one-request call raises `TypeError`. -/
theorem greedy_until_raises_type_error_witness :
    greedy_until 2048 256 (fun _ => []) (fun _ => "") (fun _ => [])
      [("hello", ["a"])] = .error .typeError :=
  greedy_until_raises_type_error 2048 256 (fun _ => []) (fun _ => "")
    (fun _ => []) [("hello", ["a"])] (by simp)

/-- Two lists with strictly increasing first components that are
permutations of each other are equal. -/
theorem eq_of_perm_of_pairwise_fst_lt {l₁ l₂ : List (Nat × γ)} (hp : l₁.Perm l₂)
    (h₁ : l₁.Pairwise (fun a b => a.1 < b.1)) (h₂ : l₂.Pairwise (fun a b => a.1 < b.1)) :
    l₁ = l₂ := by
  induction l₁ generalizing l₂ with
  | nil => exact hp.nil_eq
  | cons a t₁ ih =>
    cases l₂ with
    | nil => simpa using hp.eq_nil
    | cons b t₂ =>
      have hab : a = b := by
        by_contra hne
        have ha3 : a ∈ t₂ := by
          rcases List.mem_cons.mp (hp.mem_iff.mp (List.mem_cons_self a t₁)) with h | h
          · exact absurd h hne
          · exact h
        have hb3 : b ∈ t₁ := by
          rcases List.mem_cons.mp (hp.mem_iff.mpr (List.mem_cons_self b t₂)) with h | h
          · exact absurd h.symm hne
          · exact h
        have hlt1 : a.1 < b.1 := List.rel_of_pairwise_cons h₁ hb3
        have hlt2 : b.1 < a.1 := List.rel_of_pairwise_cons h₂ ha3
        omega
      subst hab
      rw [ih hp.cons_inv (List.Pairwise.of_cons h₁) (List.Pairwise.of_cons h₂)]

/-- Reordering by any key and then scattering the answers back restores the
original order: the Reorderer round-trips. -/
theorem get_original_map (le : α → α → Bool) (arr : List α) (f : α → γ) :
    get_original le arr ((get_reordered le arr).map f) = arr.map f := by
  unfold get_original get_reordered
  set s := reorderer_sorted le arr with hs
  set g : Nat × α → Nat × γ := fun p => (p.1, f p.2) with hg
  have hzip : (s.map Prod.fst).zip ((s.map Prod.snd).map f) = s.map g := by
    rw [List.map_map]
    exact List.zip_map' Prod.fst (f ∘ Prod.snd) s
  rw [hzip]
  have hperm : s.Perm arr.enum := List.perm_insertionSort _ _
  have hTE : (s.map g).Perm (arr.enum.map g) := hperm.map g
  have hfstE : (arr.enum.map g).map Prod.fst = List.range arr.length := by
    rw [List.map_map]
    have h1 : arr.enum.map (Prod.fst ∘ g) = arr.enum.map Prod.fst := rfl
    rw [h1, List.enum_map_fst]
  have hE_pairwise : (arr.enum.map g).Pairwise (fun a b => a.1 < b.1) := by
    have h0 : ((arr.enum.map g).map Prod.fst).Pairwise (· < ·) := by
      rw [hfstE]
      exact List.pairwise_lt_range arr.length
    exact List.pairwise_map.mp h0
  have hq_perm : (List.insertionSort fstLe (s.map g)).Perm (arr.enum.map g) :=
    (List.perm_insertionSort fstLe (s.map g)).trans hTE
  have hq_nodup : ((List.insertionSort fstLe (s.map g)).map Prod.fst).Nodup := by
    have hpm : ((List.insertionSort fstLe (s.map g)).map Prod.fst).Perm
        (List.range arr.length) := by
      rw [← hfstE]
      exact hq_perm.map Prod.fst
    exact hpm.nodup_iff.mpr (List.nodup_range arr.length)
  have hq_pairwise : (List.insertionSort fstLe (s.map g)).Pairwise
      (fun a b => a.1 < b.1) := by
    have hle : (List.insertionSort fstLe (s.map g)).Pairwise fstLe :=
      List.sorted_insertionSort fstLe (s.map g)
    have hne : (List.insertionSort fstLe (s.map g)).Pairwise
        (fun a b => a.1 ≠ b.1) := List.pairwise_map.mp hq_nodup
    exact (hle.and hne).imp (fun h => lt_of_le_of_ne h.1 h.2)
  have hq_eq : List.insertionSort fstLe (s.map g) = arr.enum.map g :=
    eq_of_perm_of_pairwise_fst_lt hq_perm hq_pairwise hE_pairwise
  rw [hq_eq, List.map_map]
  have h2 : arr.enum.map (Prod.snd ∘ g) = arr.enum.map (f ∘ Prod.snd) := rfl
  rw [h2, ← List.map_map, List.enum_map_snd]

/-- `mapM` over `Except` succeeds pointwise. -/
theorem mapM_ok_of_forall (f : α → Except ε β) (g : α → β) (l : List α)
    (h : ∀ x ∈ l, f x = .ok (g x)) : l.mapM f = .ok (l.map g) := by
  induction l with
  | nil => rfl
  | cons a t ih =>
    rw [List.mapM_cons, h a (List.mem_cons_self a t),
      ih (fun x hx => h x (List.mem_cons_of_mem a hx))]
    rfl

/-- C3: when every per-request answer computation succeeds,
`_loglikelihood_tokens` returns the answers in the original request order —
reordering by the collation key, chunked processing, and `get_original`
round-trip, so the i-th result answers the i-th request. -/
theorem loglikelihood_tokens_original_order (M : Nat) (dec : List Nat → String)
    (api : String → Choice) (requests : List LReq) (ans : LReq → ℚ × Bool)
    (h : ∀ r ∈ requests, ll_answer M dec api r = .ok (ans r)) :
    loglikelihood_tokens M dec api requests = .ok (requests.map ans) := by
  have hperm : (get_reordered ll_collate_le requests).Perm requests := by
    unfold get_reordered reorderer_sorted
    have h1 := List.perm_insertionSort
      (fun a b : Nat × LReq => ll_collate_le a.2 b.2 = true) requests.enum
    have h2 := h1.map Prod.snd
    rwa [List.enum_map_snd] at h2
  have hchunk : ∀ c ∈ chunks (get_reordered ll_collate_le requests) REQ_CHUNK_SIZE,
      ll_chunk_answers M dec api c = .ok (c.map ans) := by
    intro c hc
    apply mapM_ok_of_forall
    intro x hx
    apply h
    apply hperm.mem_iff.mp
    have hxf : x ∈ (chunks (get_reordered ll_collate_le requests) REQ_CHUNK_SIZE).flatten :=
      List.mem_flatten.mpr ⟨c, hc, hx⟩
    rwa [chunks_flatten] at hxf
  have houter : (chunks (get_reordered ll_collate_le requests) REQ_CHUNK_SIZE).mapM
      (ll_chunk_answers M dec api) =
      .ok ((chunks (get_reordered ll_collate_le requests) REQ_CHUNK_SIZE).map
        (List.map ans)) :=
    mapM_ok_of_forall _ _ _ hchunk
  have hflat : ((chunks (get_reordered ll_collate_le requests) REQ_CHUNK_SIZE).map
      (List.map ans)).flatten = (get_reordered ll_collate_le requests).map ans := by
    rw [← List.map_flatten, chunks_flatten]
  unfold loglikelihood_tokens
  rw [houter]
  dsimp only
  rw [hflat, get_original_map]

/-- C3 witness: two concrete requests against a constant oracle come back in
the original order. -/
theorem loglikelihood_tokens_original_order_witness :
    loglikelihood_tokens 2048 (fun _ => "p") (fun _ => small_choice) [w_req1, w_req2] =
      .ok ([w_req1, w_req2].map (fun _ => ((0 : ℚ), true))) :=
  loglikelihood_tokens_original_order 2048 (fun _ => "p") (fun _ => small_choice)
    [w_req1, w_req2] (fun _ => ((0 : ℚ), true)) (by decide)
